import Mathlib

/-!
Verification of the tick-data ingestion pipeline
(`scripts/download_dukascopy_xauusd_ticks.py` and
`scripts/download_xauusd_ticks.py`).

Shallow embedding conventions:
* UTC instants are milliseconds since the epoch, as `Int`; the Python
  `datetime` arithmetic used by the scripts (`timedelta(hours=1)`,
  `timedelta(milliseconds=ms)`, `.timestamp() * 1000`) is exact
  millisecond arithmetic here.
* Byte buffers are `List Nat` (one entry per byte, values below 256 in
  any buffer produced by a real download).
* Prices are exact rationals: Python's `raw / scale_factor` is modelled
  as division in `ℚ`, and the text writers' three-decimal rendering
  `f"{price:.3f}"` together with Python's `round(price, 3)` are modelled
  by the value they denote, `round3` (rounding to the nearest multiple
  of 1/1000).
* An hour payload (the compressed blob returned by the feed) is
  abstracted by its decompression outcome: the empty byte string, a
  non-empty blob on which `lzma.decompress` raises, or a non-empty blob
  that decompresses to a given byte buffer.
* The network is an oracle `Nat → HttpResult` giving the outcome of each
  successive attempt for one hour's URL; `time.sleep` is recorded as the
  list of delays slept.
* The filesystem for one day is the pair of contents (if any) at the
  final output path and at its temporary sibling.
-/

/-- Constant `MAX_MS_PER_HOUR` of the dukascopy script. -/
def MAX_MS_PER_HOUR : Nat := 3600000

/-- Constant `RECORD_SIZE` of the dukascopy script (bytes per tick record). -/
def RECORD_SIZE : Nat := 20

/-- Milliseconds in one hour, the step `timedelta(hours=1)` of both scripts. -/
def HOUR_MS : Int := 3600000

/-- Milliseconds in one day, the step `timedelta(days=1)` of both drivers. -/
def DAY_MS : Int := 86400000

/-- The `Tick` dataclass of the dukascopy script: millisecond UTC
timestamp plus ask and bid prices (prices as exact rationals). -/
structure Tick where
  ts_ms : Int
  ask : ℚ
  bid : ℚ
deriving DecidableEq, Repr

/-- One decoded 20-byte record, the five big-endian `uint32` fields of
`struct.unpack_from(">IIIII", raw, offset)`. -/
structure RawRecord where
  ms_offset : Nat
  ask_raw : Nat
  bid_raw : Nat
  volume : Nat
  reserved : Nat
deriving DecidableEq, Repr

/-- An hour payload, abstracted by what `lzma.decompress` does with it:
`empty` is the empty byte string `b""` (no data), `corrupt` is a
non-empty blob on which decompression raises `LZMAError`, and `ok raw`
is a non-empty blob that decompresses to the byte buffer `raw`. -/
inductive Payload where
  | empty : Payload
  | corrupt : Payload
  | ok (raw : List Nat) : Payload
deriving DecidableEq, Repr

/-- Big-endian `uint32` from four bytes (`>I` of the struct format). -/
def u32be (b0 b1 b2 b3 : Nat) : Nat :=
  b0 * 16777216 + b1 * 65536 + b2 * 256 + b3

/-- Decode the 20-byte records of a decompressed buffer in order, as the
loop `for offset in range(0, len(raw), RECORD_SIZE)` with
`struct.unpack_from(">IIIII", raw, offset)` does.  (The callers only
invoke this after checking the length is a multiple of 20, so the
trailing-junk fallback is never exercised there.) -/
def decodeRecords : List Nat → List RawRecord
  | b0 :: b1 :: b2 :: b3 :: b4 :: b5 :: b6 :: b7 :: b8 :: b9 ::
    b10 :: b11 :: b12 :: b13 :: b14 :: b15 :: b16 :: b17 :: b18 :: b19 :: rest =>
      ⟨u32be b0 b1 b2 b3, u32be b4 b5 b6 b7, u32be b8 b9 b10 b11,
       u32be b12 b13 b14 b15, u32be b16 b17 b18 b19⟩ :: decodeRecords rest
  | _ => []

/-- The tick built from one in-range record: timestamp
`start_of_hour + timedelta(milliseconds=ms_offset)` in epoch
milliseconds, prices `ask_raw / scale_factor` and `bid_raw / scale_factor`. -/
def tick_of_record (hour_start_ms : Int) (scale : ℚ) (r : RawRecord) : Tick :=
  ⟨hour_start_ms + (r.ms_offset : Int), (r.ask_raw : ℚ) / scale, (r.bid_raw : ℚ) / scale⟩

/-- Decoder `parse_ticks` of `download_dukascopy_xauusd_ticks.py`: empty payload
and LZMA failure give no ticks; a decompressed length that is not a
multiple of `RECORD_SIZE` gives no ticks; otherwise each record is
decoded in buffer order, records with `ms_offset >= MAX_MS_PER_HOUR`
are skipped (`continue`), and the rest become ticks. -/
def parse_ticks (hour_start_ms : Int) (payload : Payload) (scale : ℚ) : List Tick :=
  match payload with
  | .empty => []
  | .corrupt => []
  | .ok raw =>
    if raw.length % RECORD_SIZE ≠ 0 then []
    else
      (decodeRecords raw).filterMap fun r =>
        if MAX_MS_PER_HOUR ≤ r.ms_offset then none
        else some (tick_of_record hour_start_ms scale r)

/-- Decoder `parse_ticks` of `download_xauusd_ticks.py` (the plain script): same
decoding with the fixed scale factor 1000, but decompression failure
propagates (no `try`, modelled as `Except`) and there is no
`ms_offset` bound check: every decoded record becomes a tick. -/
def parse_ticks_simple (hour_start_ms : Int) (payload : Payload) :
    Except Unit (List Tick) :=
  match payload with
  | .empty => .ok []
  | .corrupt => .error ()
  | .ok raw =>
    if raw.length % 20 ≠ 0 then .ok []
    else .ok ((decodeRecords raw).map (tick_of_record hour_start_ms 1000))

/-- Enumerator `iterate_hours` of both scripts: from `start`, yield the current
instant while it is before `end`, stepping by one hour. -/
def iterate_hours (start e : Int) : List Int :=
  if _h : start < e then start :: iterate_hours (start + HOUR_MS) e
  else []
termination_by (e - start).toNat
decreasing_by simp only [HOUR_MS]; omega

/-- Helper: the list `[s, s + 1h, ..., s + (n-1)·1h]`, the shape
`iterate_hours` produces when the interval spans `n` whole hours. -/
def hoursList : Nat → Int → List Int
  | 0, _ => []
  | n + 1, s => s :: hoursList n (s + HOUR_MS)

/-- Outcome of one HTTP attempt for an hour URL: a body (already
abstracted to its decompression outcome), an `HTTPError` with a status
code, or a transport-level `URLError`. -/
inductive HttpResult where
  | success (body : Payload)
  | httpError (code : Nat)
  | urlError
deriving DecidableEq, Repr

/-- Error propagated out of `download_hour` when retries are exhausted. -/
inductive FetchErr where
  | http (code : Nat)
  | url
deriving DecidableEq, Repr

deriving instance DecidableEq for Except

/-- What one call of `download_hour` did: the returned payload or the
propagated exception, the sleep delays in order, and how many HTTP
attempts were issued. -/
structure FetchOut where
  result : Except FetchErr Payload
  sleeps : List ℚ
  attempts : Nat
deriving DecidableEq, Repr

/-- The retry loop of `download_hour` (dukascopy script).  `attempt` is
the Python `attempt` counter, `remaining = retries - attempt` is the
number of retries still allowed (the loop retries exactly when
`attempt < retries`), `backoff` is the current delay.  A success
returns the body; 404 returns the empty payload; a 5xx code or a
`URLError` retries after sleeping `backoff` and doubling it up to the
cap 8.0, and raises once retries are exhausted; any other HTTP code
raises at once. -/
def download_hour_aux (resp : Nat → HttpResult) (attempt remaining : Nat)
    (backoff : ℚ) : FetchOut :=
  match resp attempt with
  | .success body => ⟨.ok body, [], 1⟩
  | .httpError code =>
    if code = 404 then ⟨.ok .empty, [], 1⟩
    else if 500 ≤ code ∧ code < 600 then
      match remaining with
      | 0 => ⟨.error (.http code), [], 1⟩
      | r + 1 =>
        let o := download_hour_aux resp (attempt + 1) r (min (backoff * 2) 8)
        ⟨o.result, backoff :: o.sleeps, o.attempts + 1⟩
    else ⟨.error (.http code), [], 1⟩
  | .urlError =>
    match remaining with
    | 0 => ⟨.error .url, [], 1⟩
    | r + 1 =>
      let o := download_hour_aux resp (attempt + 1) r (min (backoff * 2) 8)
      ⟨o.result, backoff :: o.sleeps, o.attempts + 1⟩

/-- Fetcher `download_hour` of the dukascopy script: the retry loop started with
`attempt = 0` and `backoff = 0.5`. -/
def download_hour (resp : Nat → HttpResult) (retries : Nat) : FetchOut :=
  download_hour_aux resp 0 retries (1 / 2)

/-- Helper: the backoff delays slept over `n` consecutive failed
attempts when the current delay is `b` (sleep `b`, then continue with
`min (2 b) 8`). -/
def backoffSeq : Nat → ℚ → List ℚ
  | 0, _ => []
  | n + 1, b => b :: backoffSeq n (min (b * 2) 8)

/-- The driver's per-hour payload (`main`, dukascopy script): the fetched
bytes, or the empty payload when the fetch raised (the `except` branch
around `fut.result()` stores `b""`). -/
def hour_payload (resp : Nat → HttpResult) (retries : Nat) : Payload :=
  match (download_hour resp retries).result with
  | .ok p => p
  | .error _ => .empty

/-- Whether the driver printed the Failed-url warning for this hour,
i.e. whether `download_hour` propagated an exception. -/
def hour_warned (resp : Nat → HttpResult) (retries : Nat) : Bool :=
  match (download_hour resp retries).result with
  | .ok _ => false
  | .error _ => true

/-- Assembler `day_ticks_iter` of the dukascopy driver: iterate the payload map's
keys in sorted order (`for h in sorted(hour_payloads.keys())`) and
concatenate each hour's decoded ticks.  The key list `keys` carries the
dict's insertion order, i.e. fetch completion order. -/
def day_ticks (keys : List Int) (pay : Int → Payload) (scale : ℚ) : List Tick :=
  (List.insertionSort (· ≤ ·) keys).flatMap fun h => parse_ticks h (pay h) scale

/-- One line of a text-format output file: the header
`timestamp,askPrice,bidPrice` or a tick row with prices rendered at
three decimals (represented by the exact value that rendering denotes). -/
inductive Row where
  | header
  | tick (ts : Int) (ask3 bid3 : ℚ)
deriving DecidableEq, Repr

/-- Exact value denoted by rendering a price at three decimals
(`f"{p:.3f}"`) and equally by `round(p, 3)`: the nearest multiple of
1/1000. -/
def round3 (q : ℚ) : ℚ := (round (q * 1000) : ℤ) / 1000

/-- The CSV row written for one tick:
`writer.writerow([t.ts_ms, f"{t.ask:.3f}", f"{t.bid:.3f}"])`. -/
def row_of (t : Tick) : Row := .tick t.ts_ms (round3 t.ask) (round3 t.bid)

/-- Writer `write_day_csv`: header row then one row per tick, returning the
file contents and the running count. -/
def write_day_csv (ticks : List Tick) : List Row × Nat :=
  (Row.header :: ticks.map row_of, ticks.length)

/-- Writer `write_day_csv_gz`: identical rows through a gzip stream; the
logical contents and count coincide with the plain CSV writer's. -/
def write_day_csv_gz (ticks : List Tick) : List Row × Nat :=
  (Row.header :: ticks.map row_of, ticks.length)

/-- A Parquet file: its column schema and its rows (prices kept as raw
values; Parquet stores them unformatted). -/
structure ParquetFile where
  columns : List String
  rows : List (Int × ℚ × ℚ)
deriving DecidableEq, Repr

/-- Writer `write_day_parquet`: fails fast when pandas is unavailable; an empty
tick list still produces an (empty) table with the fixed schema. -/
def write_day_parquet (pdAvailable : Bool) (ticks : List Tick) :
    Except String (ParquetFile × Nat) :=
  if pdAvailable = false then
    .error "Parquet requires pandas. Please pip install pandas pyarrow."
  else if ticks.isEmpty then
    .ok (⟨["timestamp", "askPrice", "bidPrice"], []⟩, 0)
  else
    .ok (⟨["timestamp", "askPrice", "bidPrice"],
          ticks.map fun t => (t.ts_ms, t.ask, t.bid)⟩, ticks.length)

/-- An output path split as `pathlib` sees it: everything before the
last suffix, and the last suffix itself (e.g. stem
`xauusd_ticks_2025-01-02.csv` with suffix `.gz`, or stem
`xauusd_ticks_2025-01-02` with suffix `.csv`). -/
structure OutPath where
  stem : String
  suffix : String
deriving DecidableEq, Repr

/-- The full path string. -/
def OutPath.render (p : OutPath) : String := p.stem ++ p.suffix

/-- Path `daily_file.with_suffix(daily_file.suffix + ".tmp")`: replace the
last suffix by itself with `.tmp` appended. -/
def tmp_path (p : OutPath) : OutPath := ⟨p.stem, p.suffix ++ ".tmp"⟩

/-- Contents (if any) at a day's final output path and at its temporary
sibling. -/
structure DayFiles where
  final : Option (List Row)
  tmp : Option (List Row)
deriving DecidableEq, Repr

/-- The writer attempt inside the `try` of the driver: `.ok content`
means the format writer returned normally having produced `content` at
the temporary path; `.error part` means it raised, with `part` the state
of the temporary path at the moment of the exception (`some` partial
contents once the file was created, `none` if it never was). -/
def WriteAttempt := Except (Option (List Row)) (List Row)

/-- The driver's `try/finally` around the writer (`main`, dukascopy
script): on success the temporary file is renamed onto the final path
(`tmp_path.replace(daily_file)`); on failure the exception propagates
and the `finally` block unlinks the temporary file only when it exists
and no file sits at the final path. -/
def commit_day (priorFinal : Option (List Row)) (attempt : WriteAttempt) :
    DayFiles :=
  match attempt with
  | .ok content => ⟨some content, none⟩
  | .error part =>
    if part.isSome && priorFinal.isNone then ⟨priorFinal, none⟩
    else ⟨priorFinal, part⟩

/-- One iteration of the day loop of `main` (dukascopy script, CSV
format): skip the day untouched, with zero HTTP attempts, when the
final file exists and `--force` is not set; otherwise enumerate the 24
hours, fetch each (recording the empty payload for failed hours),
assemble the day's ticks chronologically and commit through the
temporary path.  `wo` resolves the writer attempt: `.ok ()` means the
format writer succeeds on the assembled rows, `.error part` means it
raises leaving `part` at the temporary path.  Returns the day's files
and the total number of HTTP attempts issued. -/
def process_day (force : Bool) (prior : DayFiles) (dayStart : Int)
    (env : Int → Nat → HttpResult) (retries : Nat) (scale : ℚ)
    (wo : Except (Option (List Row)) Unit) : DayFiles × Nat :=
  if prior.final.isSome && !force then (prior, 0)
  else
    let hours := iterate_hours dayStart (dayStart + DAY_MS)
    let pay : Int → Payload := fun h => hour_payload (env h) retries
    let ticks := day_ticks hours pay scale
    (commit_day prior.final (wo.map fun _ => (write_day_csv ticks).1),
     (hours.map fun h => (download_hour (env h) retries).attempts).sum)

/-- The day loop of `main` over a list of day starts, threading the
per-day files (`fs` maps a day start to its files) and accumulating the
total number of HTTP attempts.  The writer succeeds on every day
(`.ok ()`), matching a run with no I/O failure. -/
def run_range (force : Bool) (fs : Int → DayFiles) (days : List Int)
    (env : Int → Int → Nat → HttpResult) (retries : Nat) (scale : ℚ) :
    (Int → DayFiles) × Nat :=
  match days with
  | [] => (fs, 0)
  | d :: rest =>
    let pr := process_day force (fs d) d (env d) retries scale (.ok ())
    let out := run_range force (fun x => if x = d then pr.1 else fs x) rest
      env retries scale
    (out.1, pr.2 + out.2)

/-! ### Helper lemmas: hour enumeration -/

theorem iterate_hours_eq (n : Nat) :
    ∀ s : Int, iterate_hours s (s + n * HOUR_MS) = hoursList n s := by
  induction n with
  | zero => intro s; rw [iterate_hours]; simp [hoursList]
  | succ m ih =>
    intro s
    rw [iterate_hours]
    have hlt : s < s + (↑(m + 1)) * HOUR_MS := by
      simp only [HOUR_MS]; push_cast; omega
    rw [dif_pos hlt]
    have he : s + (↑(m + 1)) * HOUR_MS = (s + HOUR_MS) + (↑m) * HOUR_MS := by
      push_cast; ring
    rw [he, ih (s + HOUR_MS)]
    rfl

theorem iterate_hours_nil (start e : Int) (h : e ≤ start) :
    iterate_hours start e = [] := by
  rw [iterate_hours]
  rw [dif_neg (by omega)]

theorem hoursList_length (n : Nat) : ∀ s, (hoursList n s).length = n := by
  induction n with
  | zero => intro s; rfl
  | succ m ih => intro s; simp [hoursList, ih]

theorem hoursList_eq_range_map (n : Nat) :
    ∀ s, hoursList n s
      = List.map (fun k : Nat => s + HOUR_MS * (k : Int)) (List.range n) := by
  induction n with
  | zero => intro s; simp [hoursList]
  | succ m ih =>
    intro s
    rw [List.range_succ_eq_map]
    simp only [hoursList, List.map_cons, List.map_map, ih]
    congr 1
    · push_cast; ring
    · apply List.map_congr_left
      intro k _
      simp only [Function.comp]
      push_cast
      ring

theorem hoursList_mem_le (n : Nat) :
    ∀ s x, x ∈ hoursList n s → s ≤ x := by
  induction n with
  | zero => intro s x hx; simp [hoursList] at hx
  | succ m ih =>
    intro s x hx
    simp only [hoursList, List.mem_cons] at hx
    rcases hx with rfl | hx
    · exact le_refl x
    · have := ih (s + HOUR_MS) x hx
      simp only [HOUR_MS] at this
      omega

theorem hoursList_sorted (n : Nat) :
    ∀ s, List.Sorted (· < ·) (hoursList n s) := by
  induction n with
  | zero => intro s; simp [hoursList]
  | succ m ih =>
    intro s
    simp only [hoursList, List.sorted_cons]
    refine ⟨?_, ih (s + HOUR_MS)⟩
    intro b hb
    have := hoursList_mem_le m (s + HOUR_MS) b hb
    simp only [HOUR_MS] at this ⊢
    omega

theorem hoursList_chain' (n : Nat) :
    ∀ s, List.Chain' (fun a b => b = a + HOUR_MS) (hoursList n s) := by
  induction n with
  | zero => intro s; simp [hoursList]
  | succ m ih =>
    intro s
    cases m with
    | zero => simp [hoursList]
    | succ k =>
      simp only [hoursList]
      exact List.Chain'.cons rfl (by simpa [hoursList] using ih (s + HOUR_MS))

/-! ### Helper lemmas: record decoding -/

theorem decodeRecords_length (raw : List Nat) :
    (decodeRecords raw).length = raw.length / 20 := by
  induction raw using decodeRecords.induct with
  | case1 b0 b1 b2 b3 b4 b5 b6 b7 b8 b9 b10 b11 b12 b13 b14 b15 b16 b17 b18 b19 rest ih =>
    simp [decodeRecords, ih]
    omega
  | case2 x h =>
    rcases x with _ | ⟨b0, x⟩
    · simp [decodeRecords]
    rcases x with _ | ⟨b1, x⟩
    · simp [decodeRecords]
    rcases x with _ | ⟨b2, x⟩
    · simp [decodeRecords]
    rcases x with _ | ⟨b3, x⟩
    · simp [decodeRecords]
    rcases x with _ | ⟨b4, x⟩
    · simp [decodeRecords]
    rcases x with _ | ⟨b5, x⟩
    · simp [decodeRecords]
    rcases x with _ | ⟨b6, x⟩
    · simp [decodeRecords]
    rcases x with _ | ⟨b7, x⟩
    · simp [decodeRecords]
    rcases x with _ | ⟨b8, x⟩
    · simp [decodeRecords]
    rcases x with _ | ⟨b9, x⟩
    · simp [decodeRecords]
    rcases x with _ | ⟨b10, x⟩
    · simp [decodeRecords]
    rcases x with _ | ⟨b11, x⟩
    · simp [decodeRecords]
    rcases x with _ | ⟨b12, x⟩
    · simp [decodeRecords]
    rcases x with _ | ⟨b13, x⟩
    · simp [decodeRecords]
    rcases x with _ | ⟨b14, x⟩
    · simp [decodeRecords]
    rcases x with _ | ⟨b15, x⟩
    · simp [decodeRecords]
    rcases x with _ | ⟨b16, x⟩
    · simp [decodeRecords]
    rcases x with _ | ⟨b17, x⟩
    · simp [decodeRecords]
    rcases x with _ | ⟨b18, x⟩
    · simp [decodeRecords]
    rcases x with _ | ⟨b19, x⟩
    · simp [decodeRecords]
    exact absurd rfl (h b0 b1 b2 b3 b4 b5 b6 b7 b8 b9 b10 b11 b12 b13 b14 b15 b16 b17 b18 b19 x)

theorem parse_filterMap_eq_filter_map (hms : Int) (s : ℚ) (l : List RawRecord) :
    (l.filterMap fun r =>
        if MAX_MS_PER_HOUR ≤ r.ms_offset then none
        else some (tick_of_record hms s r))
      = (l.filter fun r => decide (r.ms_offset < MAX_MS_PER_HOUR)).map
          (tick_of_record hms s) := by
  induction l with
  | nil => rfl
  | cons a t ih =>
    by_cases h : MAX_MS_PER_HOUR ≤ a.ms_offset
    · simp [List.filterMap_cons, List.filter_cons, h, ih, Nat.not_lt.mpr h]
    · simp [List.filterMap_cons, List.filter_cons, h, ih, Nat.lt_of_not_le h]

theorem parse_ticks_ok_eq (hms : Int) (s : ℚ) (raw : List Nat)
    (hlen : raw.length % 20 = 0) :
    parse_ticks hms (.ok raw) s
      = ((decodeRecords raw).filter
          fun r => decide (r.ms_offset < MAX_MS_PER_HOUR)).map
          (tick_of_record hms s) := by
  simp only [parse_ticks, RECORD_SIZE, hlen]
  simp [parse_filterMap_eq_filter_map]

/-! ### Helper lemmas: fetch retry loop -/

theorem download_aux_allfail_url (resp : Nat → HttpResult)
    (hresp : ∀ k, resp k = .urlError) :
    ∀ (remaining attempt : Nat) (b : ℚ),
      download_hour_aux resp attempt remaining b
        = ⟨.error .url, backoffSeq remaining b, remaining + 1⟩ := by
  intro remaining
  induction remaining with
  | zero =>
    intro a b
    rw [download_hour_aux, hresp a]
    rfl
  | succ r ih =>
    intro a b
    rw [download_hour_aux, hresp a]
    simp only [ih (a + 1) (min (b * 2) 8)]
    rfl

theorem download_aux_allfail_5xx (resp : Nat → HttpResult) (code : Nat)
    (hresp : ∀ k, resp k = .httpError code)
    (h5a : 500 ≤ code) (h5b : code < 600) :
    ∀ (remaining attempt : Nat) (b : ℚ),
      download_hour_aux resp attempt remaining b
        = ⟨.error (.http code), backoffSeq remaining b, remaining + 1⟩ := by
  intro remaining
  induction remaining with
  | zero =>
    intro a b
    simp only [download_hour_aux, hresp]
    rw [if_neg (by omega : ¬ code = 404), if_pos ⟨h5a, h5b⟩]
    rfl
  | succ r ih =>
    intro a b
    simp only [download_hour_aux, hresp]
    rw [if_neg (by omega : ¬ code = 404), if_pos ⟨h5a, h5b⟩]
    simp only [ih (a + 1) (min (b * 2) 8)]
    rfl

theorem backoffSeq_closed (n : Nat) :
    ∀ j : Nat, backoffSeq n (min ((2:ℚ)^j / 2) 8)
      = List.map (fun k : Nat => min ((2:ℚ)^(j + k) / 2) 8) (List.range n) := by
  induction n with
  | zero => intro j; simp [backoffSeq]
  | succ m ih =>
    intro j
    rw [List.range_succ_eq_map]
    simp only [backoffSeq, List.map_cons, List.map_map]
    have hstep : min (min ((2:ℚ)^j / 2) 8 * 2) 8 = min ((2:ℚ)^(j+1) / 2) 8 := by
      have hpow : (2:ℚ)^(j+1) / 2 = (2:ℚ)^j := by rw [pow_succ]; ring
      rcases le_or_lt ((2:ℚ)^j / 2) 8 with hle | hlt
      · rw [min_eq_left hle, hpow]
        congr 1
        ring
      · rw [min_eq_right hlt.le, hpow]
        have h8 : (8:ℚ) ≤ 2^j := by linarith
        rw [min_eq_right (by norm_num : (8:ℚ) ≤ 8 * 2), min_eq_right h8]
    rw [hstep, ih (j + 1)]
    congr 1
    apply List.map_congr_left
    intro k _
    simp only [Function.comp, Nat.succ_eq_add_one]
    have hjk : j + 1 + k = j + (k + 1) := by omega
    rw [hjk]

theorem backoff_init : (1 : ℚ) / 2 = min ((2:ℚ)^(0:Nat) / 2) 8 := by
  norm_num

/-! ### Helper lemmas: driver day loop -/

theorem process_day_skip (prior : DayFiles) (hp : prior.final.isSome = true)
    (d : Int) (e : Int → Nat → HttpResult) (r : Nat) (s : ℚ)
    (wo : Except (Option (List Row)) Unit) :
    process_day false prior d e r s wo = (prior, 0) := by
  simp [process_day, hp]

theorem process_day_writes_final (force : Bool) (prior : DayFiles) (d : Int)
    (env : Int → Nat → HttpResult) (retries : Nat) (scale : ℚ) :
    ((process_day force prior d env retries scale (.ok ())).1).final.isSome
      = true := by
  by_cases h : (prior.final.isSome && !force) = true
  · simp only [process_day, if_pos h]
    exact (Bool.and_eq_true _ _ |>.mp h).1
  · simp [process_day, h, commit_day, Except.map]

theorem run_range_untouched (force : Bool) (days : List Int) :
    ∀ (fs : Int → DayFiles) (env : Int → Int → Nat → HttpResult)
      (retries : Nat) (scale : ℚ) (x : Int), x ∉ days →
      (run_range force fs days env retries scale).1 x = fs x := by
  induction days with
  | nil => intro fs env r s x _; rfl
  | cons d rest ih =>
    intro fs env r s x hx
    simp only [run_range]
    rw [ih _ env r s x (fun hm => hx (List.mem_cons_of_mem d hm))]
    have hxd : ¬ (x = d) := by
      intro he
      exact hx (by rw [he]; exact List.mem_cons_self d rest)
    rw [if_neg hxd]

theorem run_range_preserves_some (force : Bool) (days : List Int) :
    ∀ (fs : Int → DayFiles) (env : Int → Int → Nat → HttpResult)
      (retries : Nat) (scale : ℚ) (x : Int),
      (fs x).final.isSome = true →
      ((run_range force fs days env retries scale).1 x).final.isSome = true := by
  induction days with
  | nil => intro fs env r s x hx; exact hx
  | cons d rest ih =>
    intro fs env r s x hx
    simp only [run_range]
    apply ih
    by_cases he : x = d
    · rw [if_pos he]
      exact process_day_writes_final force (fs d) d (env d) r s
    · rw [if_neg he]
      exact hx

theorem run_range_final_some (force : Bool) (days : List Int) :
    ∀ (fs : Int → DayFiles) (env : Int → Int → Nat → HttpResult)
      (retries : Nat) (scale : ℚ) (d : Int), d ∈ days →
      ((run_range force fs days env retries scale).1 d).final.isSome = true := by
  induction days with
  | nil => intro fs env r s d hd; simp at hd
  | cons d' rest ih =>
    intro fs env r s d hd
    rcases List.mem_cons.mp hd with rfl | hmem
    · simp only [run_range]
      apply run_range_preserves_some
      rw [if_pos rfl]
      exact process_day_writes_final force (fs d) d (env d) r s
    · simp only [run_range]
      exact ih _ env r s d hmem

theorem run_range_all_skip (days : List Int) :
    ∀ (fs : Int → DayFiles) (env : Int → Int → Nat → HttpResult)
      (retries : Nat) (scale : ℚ),
      (∀ d ∈ days, (fs d).final.isSome = true) →
      run_range false fs days env retries scale = (fs, 0) := by
  induction days with
  | nil => intro fs env r s _; rfl
  | cons d rest ih =>
    intro fs env r s hall
    simp only [run_range]
    rw [process_day_skip (fs d) (hall d (List.mem_cons_self d rest)) d (env d) r s]
    have hfs : (fun x => if x = d then fs d else fs x) = fs := by
      funext x
      by_cases he : x = d
      · rw [if_pos he, he]
      · rw [if_neg he]
    rw [hfs, ih fs env r s (fun x hx => hall x (List.mem_cons_of_mem d hx))]
    simp

theorem day_ticks_empty_payloads (keys : List Int) (s : ℚ) :
    day_ticks keys (fun _ => Payload.empty) s = [] := by
  simp [day_ticks, parse_ticks]

theorem hour_payload_404 (resp : Nat → HttpResult)
    (h : resp 0 = .httpError 404) (retries : Nat) :
    hour_payload resp retries = .empty := by
  have hd : download_hour resp retries = ⟨.ok .empty, [], 1⟩ := by
    unfold download_hour
    cases retries with
    | zero =>
      rw [download_hour_aux, h]
      simp
    | succ r =>
      rw [download_hour_aux, h]
      simp
  simp [hour_payload, hd]

theorem download_hour_404 (resp : Nat → HttpResult)
    (h : resp 0 = .httpError 404) (retries : Nat) :
    download_hour resp retries = ⟨.ok .empty, [], 1⟩ := by
  unfold download_hour
  cases retries with
  | zero =>
    rw [download_hour_aux, h]
    simp
  | succ r =>
    rw [download_hour_aux, h]
    simp

theorem day_ticks_pay_congr (keys : List Int) (pay pay2 : Int → Payload)
    (s : ℚ) (h : ∀ k, pay k = pay2 k) :
    day_ticks keys pay s = day_ticks keys pay2 s := by
  unfold day_ticks
  congr 1
  funext k
  rw [h k]

theorem parse_ticks_mem_bounds (hms : Int) (p : Payload) (s : ℚ) (t : Tick)
    (ht : t ∈ parse_ticks hms p s) :
    hms ≤ t.ts_ms ∧ t.ts_ms < hms + (MAX_MS_PER_HOUR : Int) := by
  cases p with
  | empty => simp [parse_ticks] at ht
  | corrupt => simp [parse_ticks] at ht
  | ok raw =>
    simp only [parse_ticks] at ht
    by_cases hlen : raw.length % RECORD_SIZE ≠ 0
    · rw [if_pos hlen] at ht
      simp at ht
    · rw [if_neg hlen] at ht
      obtain ⟨r, _, hsome⟩ := List.mem_filterMap.mp ht
      by_cases hm : MAX_MS_PER_HOUR ≤ r.ms_offset
      · rw [if_pos hm] at hsome
        exact absurd hsome (by simp)
      · rw [if_neg hm] at hsome
        have := Option.some_injective _ hsome
        subst this
        push_neg at hm
        constructor
        · simp only [tick_of_record]
          omega
        · simp only [tick_of_record]
          omega

/-! ### Claim theorems -/

/-- C6: for a half-open day-aligned interval of `d` days, `iterate_hours`
yields exactly `24 * d` hour starts, in ascending order, consecutive
elements exactly one hour (3,600,000 ms) apart, starting at `start` and
covering the interval with no gaps or duplicates (it equals the range
map); for `e ≤ start` it yields the empty sequence rather than raising. -/
theorem iterate_hours_spec :
    ∀ (start : Int) (d : Nat),
      iterate_hours start (start + d * DAY_MS)
        = List.map (fun k : Nat => start + HOUR_MS * (k : Int))
            (List.range (24 * d))
      ∧ (iterate_hours start (start + d * DAY_MS)).length = 24 * d
      ∧ List.Chain' (fun a b => b = a + HOUR_MS)
          (iterate_hours start (start + d * DAY_MS))
      ∧ List.Sorted (· < ·) (iterate_hours start (start + d * DAY_MS))
      ∧ (0 < d → (iterate_hours start (start + d * DAY_MS)).head? = some start)
      ∧ (∀ e : Int, e ≤ start → iterate_hours start e = []) := by
  intro start d
  have key : iterate_hours start (start + d * DAY_MS) = hoursList (24 * d) start := by
    have h1 : (d : Int) * DAY_MS = ((24 * d : Nat) : Int) * HOUR_MS := by
      simp only [DAY_MS, HOUR_MS]
      push_cast
      ring
    rw [h1]
    exact iterate_hours_eq (24 * d) start
  refine ⟨?_, ?_, ?_, ?_, ?_, ?_⟩
  · rw [key]
    exact hoursList_eq_range_map (24 * d) start
  · rw [key]
    exact hoursList_length (24 * d) start
  · rw [key]
    exact hoursList_chain' (24 * d) start
  · rw [key]
    exact hoursList_sorted (24 * d) start
  · intro hd
    rw [key]
    obtain ⟨m, hm⟩ := Nat.exists_eq_succ_of_ne_zero (by omega : 24 * d ≠ 0)
    rw [hm]
    rfl
  · exact fun e he => iterate_hours_nil start e he

/-- Witness for C6 at `start = 0`, `d = 1`, `e = -1`. -/
theorem iterate_hours_spec_witness :
    (iterate_hours 0 (0 + (1 : Nat) * DAY_MS)).head? = some 0
    ∧ iterate_hours 0 (-1) = [] := by
  constructor
  · exact (iterate_hours_spec 0 1).2.2.2.2.1 (by decide)
  · exact (iterate_hours_spec 0 1).2.2.2.2.2 (-1) (by decide)

/-- C4: decoding is total and all-or-nothing per hour: an empty payload,
an LZMA-corrupt payload, and a decompressed buffer whose length is not a
multiple of 20 all yield zero ticks without raising; a buffer of exactly
`20 * N` bytes whose records all have in-range `ms_offset` yields
exactly `N` ticks, in buffer order. -/
theorem parse_ticks_record_count :
    ∀ (h : Int) (s : ℚ) (raw : List Nat) (N : Nat),
      parse_ticks h .empty s = []
      ∧ parse_ticks h .corrupt s = []
      ∧ (raw.length % 20 ≠ 0 → parse_ticks h (.ok raw) s = [])
      ∧ (raw.length = 20 * N →
          (∀ r ∈ decodeRecords raw, r.ms_offset < MAX_MS_PER_HOUR) →
          parse_ticks h (.ok raw) s
            = (decodeRecords raw).map (tick_of_record h s)
          ∧ (parse_ticks h (.ok raw) s).length = N) := by
  intro h s raw N
  refine ⟨rfl, rfl, ?_, ?_⟩
  · intro hlen
    simp [parse_ticks, RECORD_SIZE, hlen]
  · intro hlen hall
    have hmod : raw.length % 20 = 0 := by omega
    have heq := parse_ticks_ok_eq h s raw hmod
    have hfilter : (decodeRecords raw).filter
        (fun r => decide (r.ms_offset < MAX_MS_PER_HOUR)) = decodeRecords raw := by
      apply List.filter_eq_self.mpr
      intro a ha
      exact decide_eq_true (hall a ha)
    constructor
    · rw [heq, hfilter]
    · rw [heq, hfilter, List.length_map, decodeRecords_length, hlen]
      omega

/-- Witness for C4: a 1-byte buffer yields zero ticks; a single
well-formed zero record yields exactly one tick. -/
theorem parse_ticks_record_count_witness :
    parse_ticks 0 (.ok [0]) 1000 = []
    ∧ (parse_ticks 0 (.ok (List.replicate 20 0)) 1000).length = 1 := by
  constructor
  · exact (parse_ticks_record_count 0 1000 [0] 1).2.2.1 (by decide)
  · exact ((parse_ticks_record_count 0 1000 (List.replicate 20 0) 1).2.2.2
      (by decide) (by decide)).2

/-- C2 counterexample: the claim says records with
`ms_offset ≥ 3,600,000` are skipped in BOTH decoder implementations, but
`parse_ticks` of `download_xauusd_ticks.py` has no bound check: a record
with `ms_offset = 3,600,000` (bytes `00 36 EE 80`) is kept and yields a
tick whose timestamp lies outside the hour, while the dukascopy decoder
drops the same record. -/
theorem out_of_range_kept_simple_cex :
    parse_ticks_simple 0 (.ok ([0, 54, 238, 128] ++ List.replicate 16 0))
      = .ok [⟨3600000, 0, 0⟩]
    ∧ ¬ ((3600000 : Int) < 0 + (MAX_MS_PER_HOUR : Int))
    ∧ parse_ticks 0 (.ok ([0, 54, 238, 128] ++ List.replicate 16 0)) 1000 = [] := by
  refine ⟨?_, by simp [MAX_MS_PER_HOUR], ?_⟩
  · simp [parse_ticks_simple, decodeRecords, u32be, tick_of_record, List.replicate]
  · simp [parse_ticks, decodeRecords, u32be, List.replicate, RECORD_SIZE,
      MAX_MS_PER_HOUR]

/-- C2 amended: the in-hour timestamp invariant holds for the dukascopy
script's decoder only — every tick it emits satisfies
`hour_start ≤ ts < hour_start + 3,600,000`, records with out-of-range
`ms_offset` are dropped (not corrected) and in-range records are kept —
while the plain script's decoder keeps every decoded record unfiltered. -/
theorem tick_within_hour_amended :
    ∀ (hms : Int) (p : Payload) (s : ℚ) (raw : List Nat),
      (∀ t ∈ parse_ticks hms p s,
        hms ≤ t.ts_ms ∧ t.ts_ms < hms + (MAX_MS_PER_HOUR : Int))
      ∧ (raw.length % 20 = 0 →
          parse_ticks hms (.ok raw) s
            = ((decodeRecords raw).filter
                fun r => decide (r.ms_offset < MAX_MS_PER_HOUR)).map
                (tick_of_record hms s))
      ∧ (raw.length % 20 = 0 →
          parse_ticks_simple hms (.ok raw)
            = .ok ((decodeRecords raw).map (tick_of_record hms 1000))) := by
  intro hms p s raw
  refine ⟨?_, ?_, ?_⟩
  · exact fun t ht => parse_ticks_mem_bounds hms p s t ht
  · exact fun hlen => parse_ticks_ok_eq hms s raw hlen
  · intro hlen
    simp [parse_ticks_simple, hlen]

/-- Witness for C2 (amended) at a concrete single-record buffer. -/
theorem tick_within_hour_amended_witness :
    ((0:Int) ≤ (Tick.mk 0 0 0).ts_ms
      ∧ (Tick.mk 0 0 0).ts_ms < 0 + (MAX_MS_PER_HOUR : Int))
    ∧ parse_ticks 0 (.ok (List.replicate 20 0)) 1000
        = ((decodeRecords (List.replicate 20 0)).filter
            fun r => decide (r.ms_offset < MAX_MS_PER_HOUR)).map
            (tick_of_record 0 1000)
    ∧ parse_ticks_simple 0 (.ok (List.replicate 20 0))
        = .ok ((decodeRecords (List.replicate 20 0)).map (tick_of_record 0 1000)) := by
  refine ⟨?_, ?_, ?_⟩
  · apply (tick_within_hour_amended 0 (.ok (List.replicate 20 0)) 1000
      (List.replicate 20 0)).1 (Tick.mk 0 0 0)
    simp [parse_ticks, decodeRecords, u32be, tick_of_record, List.replicate,
      RECORD_SIZE, MAX_MS_PER_HOUR]
  · exact (tick_within_hour_amended 0 (.ok (List.replicate 20 0)) 1000
      (List.replicate 20 0)).2.1 (by decide)
  · exact (tick_within_hour_amended 0 (.ok (List.replicate 20 0)) 1000
      (List.replicate 20 0)).2.2 (by decide)

/-- C7: an HTTP 404 on the first attempt makes `download_hour` return the
empty byte string at once — one attempt, no sleeping, no exception — so
the driver records a success with no warning and the hour contributes
zero ticks. -/
theorem http404_empty_success :
    ∀ (resp : Nat → HttpResult) (retries : Nat) (hms : Int) (s : ℚ),
      resp 0 = .httpError 404 →
      download_hour resp retries = ⟨.ok .empty, [], 1⟩
      ∧ hour_payload resp retries = .empty
      ∧ hour_warned resp retries = false
      ∧ parse_ticks hms .empty s = [] := by
  intro resp retries hms s h
  have hd := download_hour_404 resp h retries
  exact ⟨hd, by simp [hour_payload, hd], by simp [hour_warned, hd], rfl⟩

/-- Witness for C7: every attempt 404s, three configured retries. -/
theorem http404_empty_success_witness :
    download_hour (fun _ => .httpError 404) 3 = ⟨.ok .empty, [], 1⟩
    ∧ hour_payload (fun _ => .httpError 404) 3 = .empty
    ∧ hour_warned (fun _ => .httpError 404) 3 = false
    ∧ parse_ticks 0 .empty 1000 = [] :=
  http404_empty_success (fun _ => .httpError 404) 3 0 1000 rfl

/-- C8: when every attempt fails with a `URLError` or a fixed 5xx status,
`download_hour` retries up to the configured limit (total attempts
`retries + 1`), sleeping delays `min(0.5 · 2^k, 8)` — 0.5, 1, 2, 4, 8,
8, … — between consecutive attempts, and then propagates the error; the
driver then records the empty payload for that hour and warns for it,
and the payload of any sibling hour depends only on that sibling's own
responses. -/
theorem retry_backoff_spec :
    ∀ (retries : Nat) (resp : Nat → HttpResult) (code : Nat)
      (env env2 : Int → Int → Nat → HttpResult) (hrs : List Int) (hfail : Int),
      ((∀ k, resp k = .urlError) →
        download_hour resp retries
          = ⟨.error .url,
             List.map (fun k : Nat => min ((2:ℚ)^k / 2) 8) (List.range retries),
             retries + 1⟩
        ∧ hour_payload resp retries = .empty
        ∧ hour_warned resp retries = true)
      ∧ ((∀ k, resp k = .httpError code) → 500 ≤ code → code < 600 →
        download_hour resp retries
          = ⟨.error (.http code),
             List.map (fun k : Nat => min ((2:ℚ)^k / 2) 8) (List.range retries),
             retries + 1⟩)
      ∧ ((∀ h ∈ hrs, h ≠ hfail → env h = env2 h) →
        ∀ h ∈ hrs, h ≠ hfail →
          hour_payload (env h h) retries = hour_payload (env2 h h) retries) := by
  intro retries resp code env env2 hrs hfail
  have hseq : backoffSeq retries (1 / 2)
      = List.map (fun k : Nat => min ((2:ℚ)^k / 2) 8) (List.range retries) := by
    rw [backoff_init, backoffSeq_closed retries 0]
    simp
  refine ⟨?_, ?_, ?_⟩
  · intro hall
    have hd : download_hour resp retries
        = ⟨.error .url,
           List.map (fun k : Nat => min ((2:ℚ)^k / 2) 8) (List.range retries),
           retries + 1⟩ := by
      unfold download_hour
      rw [download_aux_allfail_url resp hall retries 0 (1 / 2), hseq]
    exact ⟨hd, by simp [hour_payload, hd], by simp [hour_warned, hd]⟩
  · intro hall h5a h5b
    unfold download_hour
    rw [download_aux_allfail_5xx resp code hall h5a h5b retries 0 (1 / 2), hseq]
  · intro hagree h hm hne
    rw [hagree h hm hne]

/-- Witness for C8 at `retries = 3`: all-URLError and all-503 response
streams, checked through two applications of the theorem. -/
theorem retry_backoff_spec_witness :
    download_hour (fun _ => .urlError) 3
      = ⟨.error .url,
         List.map (fun k : Nat => min ((2:ℚ)^k / 2) 8) (List.range 3), 4⟩
    ∧ download_hour (fun _ => .httpError 503) 3
      = ⟨.error (.http 503),
         List.map (fun k : Nat => min ((2:ℚ)^k / 2) 8) (List.range 3), 4⟩ := by
  constructor
  · exact ((retry_backoff_spec 3 (fun _ => .urlError) 503 (fun _ _ _ => .urlError)
      (fun _ _ _ => .urlError) [] 0).1 (fun _ => rfl)).1
  · exact (retry_backoff_spec 3 (fun _ => .httpError 503) 503 (fun _ _ _ => .urlError)
      (fun _ _ _ => .urlError) [] 0).2.1 (fun _ => rfl) (by decide) (by decide)

/-- C5: day assembly is chronological and deterministic — `day_ticks` is
the concatenation of each hour's decode output taken over the sorted
hour keys, the sorted key list is ascending, and the result (and
therefore the written row list) depends only on the hour-to-payload
mapping, not on the completion order carried by the key list. -/
theorem day_assembly_deterministic :
    ∀ (pay : Int → Payload) (s : ℚ) (keys keys2 : List Int),
      (keys.Perm keys2 → day_ticks keys pay s = day_ticks keys2 pay s)
      ∧ (keys.Perm keys2 →
          (write_day_csv (day_ticks keys pay s)).1
            = (write_day_csv (day_ticks keys2 pay s)).1)
      ∧ day_ticks keys pay s
          = (List.insertionSort (· ≤ ·) keys).flatMap
              (fun h => parse_ticks h (pay h) s)
      ∧ List.Sorted (· ≤ ·) (List.insertionSort (· ≤ ·) keys) := by
  intro pay s keys keys2
  have hsorteq : keys.Perm keys2 →
      List.insertionSort (· ≤ ·) keys = List.insertionSort (· ≤ ·) keys2 := by
    intro hp
    have hperm : (List.insertionSort (· ≤ ·) keys).Perm
        (List.insertionSort (· ≤ ·) keys2) :=
      (List.perm_insertionSort _ keys).trans
        (hp.trans (List.perm_insertionSort _ keys2).symm)
    exact List.eq_of_perm_of_sorted hperm
      (List.sorted_insertionSort _ keys) (List.sorted_insertionSort _ keys2)
  refine ⟨?_, ?_, rfl, List.sorted_insertionSort _ keys⟩
  · intro hp
    unfold day_ticks
    rw [hsorteq hp]
  · intro hp
    unfold day_ticks write_day_csv
    rw [hsorteq hp]

/-- Witness for C5: two completion orders of the same two hours. -/
theorem day_assembly_deterministic_witness :
    day_ticks [3600000, 0] (fun _ => Payload.empty) 1000
      = day_ticks [0, 3600000] (fun _ => Payload.empty) 1000 := by
  exact (day_assembly_deterministic (fun _ => Payload.empty) 1000
    [3600000, 0] [0, 3600000]).1 (by decide)

/-- C9: the decoder produces price `raw / scale`; at the default scale
factor 1000 the decoded price is an exact multiple of 1/1000, so the
three-decimal re-encoding used by the text writers reproduces it exactly
(`round3` fixes it); and the spec's concrete example record decodes to
the specified tick. -/
theorem price_roundtrip_spec :
    ∀ (r b : Nat) (ts : Int) (hms : Int) (s : ℚ) (rec : RawRecord),
      (tick_of_record hms s rec).ask = (rec.ask_raw : ℚ) / s
      ∧ (tick_of_record hms s rec).bid = (rec.bid_raw : ℚ) / s
      ∧ round3 ((r : ℚ) / 1000) = (r : ℚ) / 1000
      ∧ row_of ⟨ts, (r : ℚ) / 1000, (b : ℚ) / 1000⟩
          = .tick ts ((r : ℚ) / 1000) ((b : ℚ) / 1000)
      ∧ parse_ticks 1735786800000
          (.ok [0,0,0,0, 0,4,12,216, 0,4,12,184, 0,0,0,0, 0,0,0,0]) 1000
          = [⟨1735786800000, 265432 / 1000, 265400 / 1000⟩] := by
  intro r b ts hms s rec
  have hround : ∀ m : Nat, round3 ((m : ℚ) / 1000) = (m : ℚ) / 1000 := by
    intro m
    unfold round3
    have hcancel : ((m : ℚ) / 1000) * 1000 = (m : ℚ) := by
      field_simp
    rw [hcancel, round_natCast]
    push_cast
    ring
  refine ⟨rfl, rfl, hround r, ?_, ?_⟩
  · unfold row_of
    simp [hround r, hround b]
  · simp [parse_ticks, decodeRecords, u32be, tick_of_record, RECORD_SIZE,
      MAX_MS_PER_HOUR]

/-- C10: a day whose 24 fetches all return 404 still commits an output
file — the text writers emit just the header row with count 0, the
Parquet writer an empty table with the fixed schema — and because the
file then exists, a following run with resume enabled (no force) skips
the day with zero HTTP attempts and leaves it unchanged. -/
theorem empty_day_writes_header_file :
    ∀ (dayStart : Int) (retries retries2 : Nat) (scale scale2 : ℚ)
      (env2 : Int → Nat → HttpResult) (wo2 : Except (Option (List Row)) Unit),
      write_day_csv [] = ([Row.header], 0)
      ∧ write_day_csv_gz [] = ([Row.header], 0)
      ∧ write_day_parquet true []
          = .ok (⟨["timestamp", "askPrice", "bidPrice"], []⟩, 0)
      ∧ (process_day false ⟨none, none⟩ dayStart (fun _ _ => .httpError 404)
          retries scale (.ok ())).1 = ⟨some [Row.header], none⟩
      ∧ process_day false ⟨some [Row.header], none⟩ dayStart env2 retries2
          scale2 wo2 = (⟨some [Row.header], none⟩, 0) := by
  intro dayStart retries retries2 scale scale2 env2 wo2
  refine ⟨rfl, rfl, rfl, ?_, ?_⟩
  · have hticks : day_ticks (iterate_hours dayStart (dayStart + DAY_MS))
        (fun h => hour_payload ((fun _ _ => HttpResult.httpError 404) h) retries)
        scale = [] := by
      rw [day_ticks_pay_congr _ _ (fun _ => Payload.empty) scale
        (fun k => hour_payload_404 _ rfl retries)]
      exact day_ticks_empty_payloads _ scale
    simp [process_day, hticks, commit_day, Except.map, write_day_csv]
  · exact process_day_skip ⟨some [Row.header], none⟩ rfl dayStart env2
      retries2 scale2 wo2

/-- C3: resume is a pre-network check and makes reruns idempotent — a
day whose final file exists is skipped (result unchanged, zero HTTP
attempts, no decode or write) when force is not set, and rerunning the
whole range after any completed run performs zero HTTP attempts in
total and returns the file map unchanged (byte-identical outputs). -/
theorem resume_skip_idempotent :
    ∀ (force : Bool) (fs : Int → DayFiles) (days : List Int)
      (env env2 : Int → Int → Nat → HttpResult) (retries retries2 : Nat)
      (scale scale2 : ℚ) (prior : DayFiles) (d : Int)
      (e : Int → Nat → HttpResult) (r : Nat) (s : ℚ)
      (wo : Except (Option (List Row)) Unit),
      (prior.final.isSome = true →
        process_day false prior d e r s wo = (prior, 0))
      ∧ run_range false (run_range force fs days env retries scale).1 days
          env2 retries2 scale2
        = ((run_range force fs days env retries scale).1, 0) := by
  intro force fs days env env2 retries retries2 scale scale2 prior d e r s wo
  constructor
  · exact fun hp => process_day_skip prior hp d e r s wo
  · exact run_range_all_skip days _ env2 retries2 scale2
      (fun x hx => run_range_final_some force days fs env retries scale x hx)

/-- Witness for C3: a committed day is skipped untouched with zero
attempts, and a one-day rerun after a completed run does nothing. -/
theorem resume_skip_idempotent_witness :
    process_day false ⟨some [Row.header], none⟩ 0 (fun _ _ => .httpError 404) 3
      1000 (.ok ()) = (⟨some [Row.header], none⟩, 0)
    ∧ run_range false
        (run_range false (fun _ => ⟨none, none⟩) [0] (fun _ _ _ => .httpError 404)
          3 1000).1 [0] (fun _ _ _ => .httpError 404) 3 1000
      = ((run_range false (fun _ => ⟨none, none⟩) [0] (fun _ _ _ => .httpError 404)
          3 1000).1, 0) := by
  constructor
  · exact (resume_skip_idempotent false (fun _ => ⟨none, none⟩) [0]
      (fun _ _ _ => .httpError 404) (fun _ _ _ => .httpError 404) 3 3 1000 1000
      ⟨some [Row.header], none⟩ 0 (fun _ _ => .httpError 404) 3 1000 (.ok ())).1 rfl
  · exact (resume_skip_idempotent false (fun _ => ⟨none, none⟩) [0]
      (fun _ _ _ => .httpError 404) (fun _ _ _ => .httpError 404) 3 3 1000 1000
      ⟨some [Row.header], none⟩ 0 (fun _ _ => .httpError 404) 3 1000 (.ok ())).2

/-- C1 counterexample: when a previously committed file already occupies
the final path (reachable only under --force) and the format writer
raises, the cleanup guard `tmp_path.exists() and not daily_file.exists()`
is false, so the temporary artifact is NOT removed: the run ends with
the prior final file intact but a residual temporary file, contradicting
the claim's "no residual temporary file". -/
theorem atomic_commit_residual_tmp_cex :
    (process_day true ⟨some [Row.header], none⟩ 0 (fun _ _ => .httpError 404) 3
        1000 (.error (some [Row.header]))).1
      = ⟨some [Row.header], some [Row.header]⟩ := by
  simp [process_day, commit_day, Except.map]

/-- C1 amended: the temporary path is the final path with `.tmp`
appended to its suffix; on writer failure the final path always keeps
its prior contents, and the temporary artifact is removed during cleanup
whenever no file sits at the final path; on writer success the assembled
rows are committed to the final path by the rename and no temporary file
remains.  (When a previously committed file occupies the final path —
possible only with --force — a failed write leaves the temporary file
behind, as the counterexample shows.) -/
theorem atomic_commit_amended :
    ∀ (force : Bool) (prior : DayFiles) (dayStart : Int)
      (env : Int → Nat → HttpResult) (retries : Nat) (scale : ℚ)
      (part : Option (List Row)) (p : OutPath),
      (tmp_path p).render = p.render ++ ".tmp"
      ∧ ((process_day force prior dayStart env retries scale
            (.error part)).1).final = prior.final
      ∧ (prior.final = none →
          ((process_day force prior dayStart env retries scale
            (.error part)).1).tmp = none)
      ∧ ((prior.final.isSome && !force) = false →
          (process_day force prior dayStart env retries scale (.ok ())).1
            = ⟨some (write_day_csv
                (day_ticks (iterate_hours dayStart (dayStart + DAY_MS))
                  (fun h => hour_payload (env h) retries) scale)).1, none⟩) := by
  intro force prior dayStart env retries scale part p
  refine ⟨?_, ?_, ?_, ?_⟩
  · simp [OutPath.render, tmp_path, String.append_assoc]
  · by_cases hskip : (prior.final.isSome && !force) = true
    · simp [process_day, hskip]
    · simp only [process_day, if_neg hskip]
      simp only [Except.map, commit_day]
      by_cases hc : (part.isSome && prior.final.isNone) = true
      · rw [if_pos hc]
      · rw [if_neg hc]
  · intro hp
    have hskip : ¬ ((prior.final.isSome && !force) = true) := by
      simp [hp]
    simp only [process_day, if_neg hskip]
    simp only [Except.map, commit_day]
    cases part with
    | none => simp
    | some c => simp [hp]
  · intro hskip
    have hcond : ¬ ((prior.final.isSome && !force) = true) := by
      rw [hskip]
      simp
    unfold process_day
    rw [if_neg hcond]
    rfl

/-- Witness for C1 (amended) at concrete inputs: an empty final path
gets its temporary file cleaned up after a failed write, and a
successful write commits with no temporary left. -/
theorem atomic_commit_amended_witness :
    ((process_day false ⟨none, none⟩ 0 (fun _ _ => .httpError 404) 3 1000
        (.error (some [Row.header]))).1).tmp = none
    ∧ (process_day false ⟨none, none⟩ 0 (fun _ _ => .httpError 404) 3 1000
        (.ok ())).1
      = ⟨some (write_day_csv
          (day_ticks (iterate_hours 0 (0 + DAY_MS))
            (fun h => hour_payload ((fun _ _ => HttpResult.httpError 404) h) 3)
            1000)).1, none⟩ := by
  constructor
  · exact (atomic_commit_amended false ⟨none, none⟩ 0 (fun _ _ => .httpError 404)
      3 1000 (some [Row.header]) ⟨"x", ".csv"⟩).2.2.1 rfl
  · exact (atomic_commit_amended false ⟨none, none⟩ 0 (fun _ _ => .httpError 404)
      3 1000 (some [Row.header]) ⟨"x", ".csv"⟩).2.2.2 rfl
